import Mathlib

/-!
# s3tree: the command-line driver `main` of `src/s3tree.go`

A shallow embedding of `main`: the flag variables, the construction of the
paths handed to `addFile`, the `tree.Options` literal, the count bookkeeping
after `Visit` and the footer.  The storage session, the listing request, the
in-memory file system (`NewFs`, `addFile`), the spinner and the tree library
(`tree.New`, `Visit`, `Print`) are collaborators whose code is not part of
`s3tree.go`; they appear as fields of an environment record and `main` is a
function from the flags and that environment to the sequence of observable
events of a run.
-/

namespace S3Tree

/-! ## `fmt`: the verbs used by `s3tree.go` -/

/-- An operand of a formatting call: a Go `string` (an `error` is passed as its
`Error()` text, which is what `%s` prints for it) or a Go `int`. -/
inductive Arg where
  | str (s : String)
  | int (i : Int)
  deriving DecidableEq, Repr

/-- The digit loop of `fmt.fmtInteger` for base 10:
`for u >= 10 { next := u / 10; buf[i] = '0' + u - next*10; u = next }` followed by
`buf[i] = digits[u]`.  The buffer is filled from the right, which is the
accumulator `acc`; `fuel` bounds the number of iterations. -/
def fmtDigits : Nat → Nat → List Char → List Char
  | 0, u, acc => Char.ofNat (48 + u) :: acc
  | fuel + 1, u, acc =>
    if 10 ≤ u then
      fmtDigits fuel (u / 10) (Char.ofNat (48 + (u - u / 10 * 10)) :: acc)
    else
      Char.ofNat (48 + u) :: acc

/-- The signed base-10 case of `fmt.fmtInteger`, as reached from `%d`:
`negative := a < 0; if negative { u = -u }`, the digit loop, then the sign. -/
def fmtInteger (a : Int) : List Char :=
  let negative := decide (a < 0)
  let u := a.natAbs
  let digits := fmtDigits u u []
  if negative then '-' :: digits else digits

/-- The name `fmt` prints for the dynamic type of an operand. -/
def Arg.typeName : Arg → List Char
  | .str _ => "string".data
  | .int _ => "int".data

/-- An operand printed with its default format (`%v`). -/
def Arg.value : Arg → List Char
  | .str s => s.data
  | .int i => fmtInteger i

/-- What `fmt` prints for a verb that does not fit its operand:
`%!verb(type=value)`. -/
def badVerb (verb : Char) (a : Arg) : List Char :=
  "%!".data ++ [verb] ++ "(".data ++ a.typeName ++ "=".data ++ a.value ++ ")".data

/-- One operand printed under one verb, for the verbs `s`, `d` and `v`. -/
def printArg (verb : Char) (a : Arg) : List Char :=
  match a with
  | .str s => if verb = 's' ∨ verb = 'v' then s.data else badVerb verb a
  | .int i => if verb = 'd' ∨ verb = 'v' then fmtInteger i else badVerb verb a

/-- The report of operands left over once the format is consumed:
`%!(EXTRA type=value, type=value)`. -/
def extraArgs : List Arg → List Char
  | [] => []
  | a :: rest =>
    "%!(EXTRA ".data ++ a.typeName ++ "=".data ++ a.value
      ++ (rest.map (fun b => ", ".data ++ b.typeName ++ "=".data ++ b.value)).flatten
      ++ ")".data

/-- The scanning loop of `fmt`, `(*pp).doPrintf`, restricted to plain verbs (no
flags, width, precision or argument index; `s3tree.go` uses none).  Bytes
other than `%` are copied; `%%` prints a percent sign; a verb consumes the
next operand, or prints `%!verb(MISSING)` when none is left; a `%` that ends
the format prints `%!(NOVERB)`; operands left over are reported at the end. -/
def doPrintf : List Char → List Arg → List Char
  | [], args => extraArgs args
  | c :: rest, args =>
    if c = '%' then
      match rest, args with
      | [], args => "%!(NOVERB)".data ++ extraArgs args
      | verb :: rest2, [] =>
        if verb = '%' then '%' :: doPrintf rest2 []
        else "%!".data ++ [verb] ++ "(MISSING)".data ++ doPrintf rest2 []
      | verb :: rest2, a :: args2 =>
        if verb = '%' then '%' :: doPrintf rest2 (a :: args2)
        else printArg verb a ++ doPrintf rest2 args2
    else c :: doPrintf rest args

/-- The call `fmt.Sprintf(format, args...)`. -/
def Sprintf (format : String) (args : List Arg) : String :=
  String.mk (doPrintf format.data args)

/-- The text that `fmt.Fprintf(w, format, args...)` writes to `w`. -/
def Fprintf (format : String) (args : List Arg) : String :=
  String.mk (doPrintf format.data args)

/-! ## Data handled by `main` -/

/-- The flag variables of `s3tree.go` (lines 14-58) as they stand after
`flag.Parse()`.  The field `pfx` is the variable `prefix` of the source. -/
structure Flags where
  o : String
  a : Bool
  d : Bool
  f : Bool
  s : Bool
  h : Bool
  Q : Bool
  D : Bool
  C : Bool
  L : Int
  U : Bool
  v : Bool
  t : Bool
  r : Bool
  P : String
  I : String
  ignorecase : Bool
  dirsfirst : Bool
  sort : String
  bucket : String
  pfx : String
  region : String
  profile : String
  deriving DecidableEq, Repr

/-- Modelled from the spec: the record type `s3.Object` of the storage library is
not declared in `s3tree.go`; the specification describes a listed record as a
(full key string, size, last-modified timestamp) triple. -/
structure Object where
  Key : String
  Size : Int
  LastModified : Int
  deriving DecidableEq, Repr

/-- The output sink `outFile`: `os.Stdout`, or the file created for `-o`. -/
inductive OutFile where
  | stdout
  | file (name : String)
  deriving DecidableEq, Repr

/-- Modelled from the spec: the type `tree.Options` of the tree library is not
declared in `s3tree.go`.  It has the fields that the literal in `main` assigns
(lines 141-162) and, from the configuration surface of the specification
(`ignoreCase`), the field `IgnoreCase`; a field that a Go composite literal
does not mention holds its zero value. -/
structure Options (F : Type) where
  Fs : F
  OutFile : OutFile
  All : Bool
  DirsOnly : Bool
  FullPath : Bool
  IgnoreCase : Bool
  ByteSize : Bool
  UnitSize : Bool
  Quotes : Bool
  LastMod : Bool
  Colorize : Bool
  DeepLevel : Int
  NoSort : Bool
  ReverSort : Bool
  DirSort : Bool
  VerSort : Bool
  NameSort : Bool
  SizeSort : Bool
  ModSort : Bool
  Pattern : String
  IPattern : String
  deriving DecidableEq, Repr

/-- The collaborators of `main` whose code is outside `s3tree.go`: the storage
session and listing request, the in-memory file system (`NewFs`, `addFile`),
`os.Create`, and `Visit` and `Print` of the tree library.  A failing call
carries the text of its error. -/
structure Env (F : Type) where
  NewSessionWithOptions : (region profile : String) → Except String Unit
  ListObjects : (region profile bucket pfx : String) → Except String (List Object)
  NewFs : F
  addFile : F → String → Object → F
  Create : String → Except String Unit
  Visit : String → Options F → Int × Int
  Print : String → Options F → String

/-- What a run of `main` does, in order, as seen from outside. -/
inductive Event (F : Type) where
  | stderr (text : String)
  | exit (code : Nat)
  | panic (text : String)
  | newSpin
  | spinDone
  | listObjects (bucket pfx : String)
  | addFile (path : String) (obj : Object)
  | create (name : String)
  | visit (root : String) (opts : Options F)
  | print (root : String) (opts : Options F)
  | write (out : OutFile) (text : String)
  | close (out : OutFile)
  deriving DecidableEq, Repr

/-! ## `main` -/

/-- The function `errAndExit` (lines 186-189):
`fmt.Fprintf(os.Stderr, "s3tree: \"%s\"\n", err); os.Exit(1)`. -/
def errAndExit {F : Type} (err : String) : List (Event F) :=
  [.stderr (Fprintf "s3tree: \"%s\"\n" [.str err]), .exit 1]

/-- The test of line 102, `len(*prefix) == 0`, on the byte length of the flag. -/
def noPrefix (pfx : String) : Bool := decide (pfx.utf8ByteSize = 0)

/-- The body of the listing loop (lines 120-123): the path handed to `addFile`
for a listed key. -/
def keyPath (bucket : String) (noPrefix : Bool) (key : String) : String :=
  if noPrefix then Sprintf "%s/%s" [.str bucket, .str key] else key

/-- The listing loop (lines 119-125): every object of `resp.Contents`, in
order, is handed to `fs.addFile` under its path.  Returns the file system
built and the calls made. -/
def listingLoop {F : Type} (addFile : F → String → Object → F) (bucket : String)
    (noPrefix : Bool) : F → List Object → F × List (Event F)
  | fs, [] => (fs, [])
  | fs, obj :: rest =>
    let key := keyPath bucket noPrefix obj.Key
    let r := listingLoop addFile bucket noPrefix (addFile fs key obj) rest
    (r.1, .addFile key obj :: r.2)

/-- The root label handed to `tree.New` (lines 128-131). -/
def rootDir (bucket pfx : String) (noPrefix : Bool) : String :=
  if noPrefix then bucket else pfx

/-- The literal `&tree.Options{...}` of lines 141-162. -/
def buildOptions {F : Type} (flags : Flags) (fs : F) (outFile : OutFile) : Options F :=
  { Fs := fs
    OutFile := outFile
    All := flags.a
    DirsOnly := flags.d
    FullPath := flags.f
    IgnoreCase := false
    ByteSize := flags.s
    UnitSize := flags.h
    Quotes := flags.Q
    LastMod := flags.D
    Colorize := flags.C
    DeepLevel := flags.L
    NoSort := flags.U
    ReverSort := flags.r
    DirSort := flags.dirsfirst
    VerSort := flags.v || flags.sort == "version"
    NameSort := flags.sort == "name"
    SizeSort := flags.sort == "size"
    ModSort := flags.t
    Pattern := flags.P
    IPattern := flags.I }

/-- Arithmetic of the Go type `int` (64 bits, two's complement): a result is
reduced into the range from `-2^63` to `2^63 - 1`. -/
def wrapInt (x : Int) : Int := (x + 2 ^ 63) % 2 ^ 64 - 2 ^ 63

/-- The values of the Go type `int`. -/
def isInt (x : Int) : Prop := -(2 : Int) ^ 63 ≤ x ∧ x < 2 ^ 63

instance (x : Int) : Decidable (isInt x) := by
  unfold isInt
  infer_instance

/-- The count bookkeeping of lines 127 and 164-166: `nd` and `nf` start at zero
and `if d, f := inf.Visit(opts); f != 0 { nd, nf = nd+d-1, nf+f }`. -/
def counts (visited : Int × Int) : Int × Int :=
  let nd : Int := 0
  let nf : Int := 0
  let d := visited.1
  let f := visited.2
  if f ≠ 0 then (wrapInt (wrapInt (nd + d) - 1), wrapInt (nf + f)) else (nd, nf)

/-- The footer string of lines 169-172. -/
def footer (nd nf : Int) (DirsOnly : Bool) : String :=
  let footer := Sprintf "\n%d directories" [.int nd]
  if !DirsOnly then footer ++ Sprintf ", %d files" [.int nf] else footer

/-- The text of line 173, `fmt.Fprintf(outFile, footer)`: the footer string is
the format and there is no operand. -/
def footerWritten (nd nf : Int) (DirsOnly : Bool) : String :=
  Fprintf (footer nd nf DirsOnly) []

/-- The part of `main` from the choice of the output file on (lines 132-173):
open the sink, build the options, visit, print, write the footer. -/
def render {F : Type} (flags : Flags) (env : Env F) (fs : F) (noPrefix : Bool) :
    List (Event F) :=
  let root := rootDir flags.bucket flags.pfx noPrefix
  let finish (outFile : OutFile) : List (Event F) :=
    let opts := buildOptions flags fs outFile
    let n := counts (env.Visit root opts)
    [.visit root opts, .print root opts, .write outFile (env.Print root opts),
     .write outFile (footerWritten n.1 n.2 opts.DirsOnly), .close outFile]
  if flags.o ≠ "" then
    .create flags.o ::
      (match env.Create flags.o with
       | .error err => errAndExit err
       | .ok _ => finish (.file flags.o))
  else finish .stdout

/-- The function `main` (lines 94-174) as the sequence of events of a run. -/
def main {F : Type} (flags : Flags) (env : Env F) : List (Event F) :=
  if flags.bucket.utf8ByteSize = 0 then
    errAndExit "-b(s3 bucket) is required"
  else
    let noPrefix := noPrefix flags.pfx
    match env.NewSessionWithOptions flags.region flags.profile with
    | .error err => [.panic err]
    | .ok _ =>
      .newSpin :: .listObjects flags.bucket flags.pfx :: .spinDone ::
        (match env.ListObjects flags.region flags.profile flags.bucket flags.pfx with
         | .error err => errAndExit err
         | .ok contents =>
           let built := listingLoop env.addFile flags.bucket noPrefix env.NewFs contents
           built.2 ++ render flags env built.1 noPrefix)

/-! ## Notions used to state the properties -/

/-- The paths of the `addFile` calls of a run, in order. -/
def insertedPaths {F : Type} : List (Event F) → List String
  | [] => []
  | .addFile path _ :: rest => path :: insertedPaths rest
  | _ :: rest => insertedPaths rest

/-- The first `/`-separated segment of a path: its bytes up to the first `/`. -/
def firstSegment (path : String) : String :=
  String.mk (path.data.takeWhile (fun c => c ≠ '/'))

/-- A path with its first `n` characters removed. -/
def dropChars (n : Nat) (path : String) : String :=
  String.mk (path.data.drop n)

/-- The root labels of the `Visit` calls of a run (the labels given to
`tree.New`), in order. -/
def treeRoots {F : Type} : List (Event F) → List String
  | [] => []
  | .visit root _ :: rest => root :: treeRoots rest
  | _ :: rest => treeRoots rest

/-- The four sort criterion fields of the options. -/
def sortCriteria {F : Type} (opts : Options F) : List Bool :=
  [opts.VerSort, opts.NameSort, opts.SizeSort, opts.ModSort]

/-- A run used to evaluate the definitions: the flags `-b bk`. -/
def sampleFlags : Flags :=
  { o := "", a := false, d := false, f := false, s := false, h := false, Q := false,
    D := false, C := false, L := 0, U := false, v := false, t := false, r := false,
    P := "", I := "", ignorecase := false, dirsfirst := false, sort := "",
    bucket := "bk", pfx := "", region := "us-east-1", profile := "tokenauth" }

/-- A listing of three records, the second with an empty key. -/
def sampleContents : List Object :=
  [{ Key := "a/b.txt", Size := 3, LastModified := 0 },
   { Key := "", Size := 0, LastModified := 0 },
   { Key := "c", Size := 1, LastModified := 1 }]

/-- Collaborators used to evaluate the definitions: the file system is the list
of the paths inserted, the session opens, the listing answers
`sampleContents`, `Visit` reports two directories and three files. -/
def sampleEnv : Env (List String) :=
  { NewSessionWithOptions := fun _ _ => .ok ()
    ListObjects := fun _ _ _ _ => .ok sampleContents
    NewFs := []
    addFile := fun fs path _ => fs ++ [path]
    Create := fun _ => .ok ()
    Visit := fun _ _ => (2, 3)
    Print := fun root _ => root ++ "\n" }

/-- The texts written to the output sink in a run, each with its sink, in
order. -/
def writes {F : Type} : List (Event F) → List (OutFile × String)
  | [] => []
  | .write out text :: rest => (out, text) :: writes rest
  | _ :: rest => writes rest

/-- The output sink of a run (lines 133-135): the file named by `-o` when one is
named, the standard output otherwise. -/
def sink (flags : Flags) : OutFile :=
  if flags.o ≠ "" then .file flags.o else .stdout

/-- The root label of a run (lines 102 and 128-131). -/
def runRoot (flags : Flags) : String :=
  rootDir flags.bucket flags.pfx (noPrefix flags.pfx)

/-- The options of a run whose listing answered `contents`: the literal of lines
141-162 over the file system left by the listing loop and the sink of the
run. -/
def runOptions {F : Type} (flags : Flags) (env : Env F) (contents : List Object) :
    Options F :=
  buildOptions flags
    (listingLoop env.addFile flags.bucket (noPrefix flags.pfx) env.NewFs contents).1
    (sink flags)

/-- The counts `(nd, nf)` that `main` holds after the `Visit` step (lines
163-166) in a run whose listing answered `contents`. -/
def runCounts {F : Type} (flags : Flags) (env : Env F) (contents : List Object) :
    Int × Int :=
  counts (env.Visit (runRoot flags) (runOptions flags env contents))

/-- The collaborators of `sampleEnv` with a `Visit` that reports four
directories (the root included) and five files. -/
def countingEnv : Env (List String) :=
  { NewSessionWithOptions := fun _ _ => .ok ()
    ListObjects := fun _ _ _ _ => .ok sampleContents
    NewFs := []
    addFile := fun fs path _ => fs ++ [path]
    Create := fun _ => .ok ()
    Visit := fun _ _ => (4, 5)
    Print := fun root _ => root ++ "\n" }

/-! ## Formatting lemmas -/

theorem digit_eq_digitChar (k : Nat) (hk : k < 10) : Char.ofNat (48 + k) = Nat.digitChar k := by
  interval_cases k <;> rfl

theorem digit_ne_percent (k : Nat) (hk : k < 10) : Char.ofNat (48 + k) ≠ '%' := by
  interval_cases k <;> decide

theorem fmtDigits_eq_toDigitsCore (fuel : Nat) :
    ∀ (u : Nat) (acc : List Char), u ≤ fuel →
      fmtDigits fuel u acc = Nat.toDigitsCore 10 (fuel + 1) u acc := by
  induction fuel with
  | zero =>
    intro u acc hu
    have h0 : u = 0 := by omega
    subst h0
    rfl
  | succ n ih =>
    intro u acc hu
    have hmod : u - u / 10 * 10 = u % 10 := by omega
    by_cases h10 : 10 ≤ u
    · have hne : u / 10 ≠ 0 := by omega
      have hle : u / 10 ≤ n := by omega
      rw [fmtDigits, if_pos h10, hmod, ih (u / 10) _ hle, digit_eq_digitChar _ (Nat.mod_lt u (by decide))]
      conv_rhs => rw [Nat.toDigitsCore]
      simp only [hne, if_false]
    · have hz : u / 10 = 0 := by omega
      have hu10 : u % 10 = u := by omega
      rw [fmtDigits, if_neg h10, digit_eq_digitChar u (by omega)]
      conv_rhs => rw [Nat.toDigitsCore]
      simp only [hz, if_true, hu10]

theorem fmtInteger_eq_repr (a : Int) : String.mk (fmtInteger a) = Int.repr a := by
  cases a with
  | ofNat m =>
    have hnot : ¬ ((Int.ofNat m) < 0) := by simp
    simp only [fmtInteger, hnot, decide_False, Bool.false_eq_true, if_false]
    show String.mk (fmtDigits m m []) = Int.repr (Int.ofNat m)
    rw [fmtDigits_eq_toDigitsCore m m [] (le_refl m)]
    rfl
  | negSucc m =>
    have hneg : (Int.negSucc m) < 0 := Int.negSucc_lt_zero m
    simp only [fmtInteger, hneg, decide_True, if_true]
    show String.mk ('-' :: fmtDigits (m + 1) (m + 1) []) = Int.repr (Int.negSucc m)
    rw [fmtDigits_eq_toDigitsCore (m + 1) (m + 1) [] (le_refl _)]
    rfl

theorem fmtDigits_no_percent (fuel : Nat) :
    ∀ (u : Nat) (acc : List Char), u ≤ fuel → (∀ c ∈ acc, c ≠ '%') →
      ∀ c ∈ fmtDigits fuel u acc, c ≠ '%' := by
  induction fuel with
  | zero =>
    intro u acc hu hacc c hc
    have h0 : u = 0 := by omega
    subst h0
    simp only [fmtDigits, List.mem_cons] at hc
    rcases hc with hc | hc
    · rw [hc]; decide
    · exact hacc c hc
  | succ n ih =>
    intro u acc hu hacc c hc
    by_cases h10 : 10 ≤ u
    · rw [fmtDigits, if_pos h10] at hc
      refine ih (u / 10) _ (by omega) ?_ c hc
      intro e he
      simp only [List.mem_cons] at he
      rcases he with he | he
      · rw [he]; exact digit_ne_percent _ (by omega)
      · exact hacc e he
    · rw [fmtDigits, if_neg h10] at hc
      simp only [List.mem_cons] at hc
      rcases hc with hc | hc
      · rw [hc]; exact digit_ne_percent _ (by omega)
      · exact hacc c hc

theorem fmtInteger_no_percent (a : Int) : ∀ c ∈ fmtInteger a, c ≠ '%' := by
  intro c hc
  have hd : ∀ e ∈ fmtDigits a.natAbs a.natAbs [], e ≠ '%' :=
    fmtDigits_no_percent _ _ [] (le_refl _) (by simp)
  unfold fmtInteger at hc
  by_cases hneg : a < 0
  · simp only [hneg, decide_True, if_true, List.mem_cons] at hc
    rcases hc with hc | hc
    · rw [hc]; decide
    · exact hd c hc
  · simp only [hneg, decide_False, Bool.false_eq_true, if_false] at hc
    exact hd c hc

/-- A format without a percent sign and without operands is printed as it stands. -/
theorem doPrintf_plain (cs : List Char) (h : ∀ c ∈ cs, c ≠ '%') : doPrintf cs [] = cs := by
  induction cs with
  | nil => rfl
  | cons c rest ih =>
    have hc : c ≠ '%' := h c (List.mem_cons_self _ _)
    rw [doPrintf.eq_def]
    simp only [if_neg hc, ih (fun e he => h e (List.mem_cons_of_mem _ he))]

theorem sprintf_directories (nd : Int) :
    (Sprintf "\n%d directories" [.int nd]).data
      = '\n' :: (fmtInteger nd ++ " directories".data) := by
  simp [Sprintf, doPrintf, printArg, extraArgs]

theorem sprintf_files (nf : Int) :
    (Sprintf ", %d files" [.int nf]).data = ", ".data ++ (fmtInteger nf ++ " files".data) := by
  simp [Sprintf, doPrintf, printArg, extraArgs]

theorem repr_data (a : Int) : (Int.repr a).data = fmtInteger a := by
  rw [← fmtInteger_eq_repr]

theorem footer_eq (nd nf : Int) (DirsOnly : Bool) :
    footer nd nf DirsOnly =
      if DirsOnly then "\n" ++ Int.repr nd ++ " directories"
      else "\n" ++ Int.repr nd ++ " directories, " ++ Int.repr nf ++ " files" := by
  apply String.ext
  cases DirsOnly
  · simp only [footer, Bool.not_false, if_true, Bool.false_eq_true, if_false,
      String.data_append, sprintf_directories, sprintf_files, repr_data]
    simp
  · simp only [footer, Bool.not_true, Bool.false_eq_true, if_false, if_true,
      String.data_append, sprintf_directories, repr_data]
    simp

theorem no_percent_append {l₁ l₂ : List Char} (h₁ : ∀ c ∈ l₁, c ≠ '%')
    (h₂ : ∀ c ∈ l₂, c ≠ '%') : ∀ c ∈ l₁ ++ l₂, c ≠ '%' := by
  intro c hc
  rcases List.mem_append.mp hc with h | h
  · exact h₁ c h
  · exact h₂ c h

theorem footer_no_percent (nd nf : Int) (DirsOnly : Bool) :
    ∀ c ∈ (footer nd nf DirsOnly).data, c ≠ '%' := by
  have h1 := fmtInteger_no_percent nd
  have h2 := fmtInteger_no_percent nf
  have hnl : ∀ e ∈ ['\n'], e ≠ '%' := by decide
  have hdir : ∀ e ∈ " directories".data, e ≠ '%' := by decide
  have hfile : ∀ e ∈ " files".data, e ≠ '%' := by decide
  have hsep : ∀ e ∈ ", ".data, e ≠ '%' := by decide
  have hfirst : ∀ e ∈ (Sprintf "\n%d directories" [.int nd]).data, e ≠ '%' := by
    rw [sprintf_directories]
    exact no_percent_append hnl (no_percent_append h1 hdir)
  cases DirsOnly
  · simp only [footer, Bool.not_false, if_true, String.data_append]
    refine no_percent_append hfirst ?_
    rw [sprintf_files]
    exact no_percent_append hsep (no_percent_append h2 hfile)
  · simp only [footer, Bool.not_true, Bool.false_eq_true, if_false]
    exact hfirst

/-- The text written by `fmt.Fprintf(outFile, footer)` for given counts: the
footer string holds no percent sign and is written as it stands. -/
theorem footerWritten_eq (nd nf : Int) (DirsOnly : Bool) :
    footerWritten nd nf DirsOnly =
      if DirsOnly then "\n" ++ Int.repr nd ++ " directories"
      else "\n" ++ Int.repr nd ++ " directories, " ++ Int.repr nf ++ " files" := by
  unfold footerWritten Fprintf
  rw [doPrintf_plain _ (footer_no_percent nd nf DirsOnly)]
  exact footer_eq nd nf DirsOnly

/-! ## Byte length and the empty string -/

theorem utf8ByteSize_go_pos (c : Char) (cs : List Char) :
    0 < String.utf8ByteSize.go (c :: cs) := by
  have hc : 0 < c.utf8Size := Char.utf8Size_pos c
  simp only [String.utf8ByteSize.go]
  omega

theorem utf8ByteSize_eq_zero (s : String) : s.utf8ByteSize = 0 ↔ s = "" := by
  constructor
  · intro h
    cases s with
    | mk data =>
      cases data with
      | nil => rfl
      | cons c cs =>
        have hpos := utf8ByteSize_go_pos c cs
        simp only [String.utf8ByteSize] at h
        omega
  · intro h
    subst h
    rfl

theorem noPrefix_empty : noPrefix "" = true := by decide

theorem noPrefix_of_ne {pfx : String} (h : pfx ≠ "") : noPrefix pfx = false := by
  unfold noPrefix
  rw [decide_eq_false_iff_not, utf8ByteSize_eq_zero]
  exact h

/-! ## The counts after `Visit` -/

theorem wrapInt_of_isInt {x : Int} (h : isInt x) : wrapInt x = x := by
  unfold isInt at h
  unfold wrapInt
  omega

theorem counts_of_ne_zero {d f : Int} (hd : isInt d) (hf : isInt f) (hd1 : 1 ≤ d)
    (hf0 : f ≠ 0) : counts (d, f) = (d - 1, f) := by
  have hd' : isInt (d - 1) := by
    unfold isInt at hd ⊢
    omega
  simp only [counts, ne_eq, hf0, not_false_eq_true, if_true, zero_add, wrapInt_of_isInt hd,
    wrapInt_of_isInt hd', wrapInt_of_isInt hf]

theorem counts_of_zero (d : Int) : counts (d, 0) = (0, 0) := by
  simp [counts]

/-- C2, as stated, fails: `Visit` returning 3 directories (the root included) and
no file leaves the directory count of the footer at 0, not at 3 - 1. -/
theorem counts_zero_files_counterexample :
    isInt 3 ∧ isInt 0 ∧ (1 : Int) ≤ 3 ∧ (0 : Int) ≤ 0
      ∧ (counts (3, 0)).1 = 0 ∧ (counts (3, 0)).1 ≠ 3 - 1
      ∧ footerWritten (counts (3, 0)).1 (counts (3, 0)).2 true = "\n0 directories" := by
  decide

/-- C2, amended: for every result `(d, f)` of `Visit` (two values of the Go type
`int`) with `d ≥ 1`, the file count of the footer is `f` (also for `f = 0`),
and when `f` is not zero the directory count of the footer is `d - 1`. -/
theorem counts_after_visit (d f : Int) (hd : isInt d) (hf : isInt f) (hd1 : 1 ≤ d) :
    (f ≠ 0 → (counts (d, f)).1 = d - 1) ∧ (counts (d, f)).2 = f := by
  by_cases hz : f = 0
  · subst hz
    rw [counts_of_zero]
    exact ⟨fun h => absurd rfl h, rfl⟩
  · rw [counts_of_ne_zero hd hf hd1 hz]
    exact ⟨fun _ => rfl, rfl⟩

theorem counts_after_visit_witness :
    (((7 : Int) ≠ 0 → (counts (4, 7)).1 = 4 - 1) ∧ (counts (4, 7)).2 = 7)
      ∧ (counts (4, 7)) = (3, 7) :=
  ⟨counts_after_visit 4 7 (by decide) (by decide) (by decide), by decide⟩

/-- C10, as stated, fails: for the `Visit` result `(0, 1)` the directory count of
the footer is `-1`, and the footer reads "-1 directories". -/
theorem counts_negative_counterexample :
    isInt 0 ∧ isInt 1 ∧ (0 : Int) ≤ 0 ∧ (0 : Int) ≤ 1
      ∧ (counts (0, 1)).1 = -1 ∧ (counts (0, 1)).1 < 0
      ∧ footerWritten (counts (0, 1)).1 (counts (0, 1)).2 false
          = "\n-1 directories, 1 files" := by
  decide

/-- C10, amended: for every result `(d, f)` of `Visit` (two values of the Go type
`int`) in which `d ≥ 1` (the root is counted) or `f = 0`, the directory count
of the footer is not negative. -/
theorem counts_nonneg (d f : Int) (hd : isInt d) (hf : isInt f)
    (h : 1 ≤ d ∨ f = 0) : 0 ≤ (counts (d, f)).1 := by
  by_cases hz : f = 0
  · subst hz
    rw [counts_of_zero]
  · have hd1 : 1 ≤ d := by
      rcases h with h | h
      · exact h
      · exact absurd h hz
    rw [counts_of_ne_zero hd hf hd1 hz]
    show 0 ≤ d - 1
    omega

theorem counts_nonneg_witness :
    0 ≤ (counts (1, 5)).1 ∧ 0 ≤ (counts (0, 0)).1 ∧ counts (1, 5) = (0, 5) :=
  ⟨counts_nonneg 1 5 (by decide) (by decide) (Or.inl (by decide)),
   counts_nonneg 0 0 (by decide) (by decide) (Or.inr rfl),
   by decide⟩

/-! ## The paths handed to `addFile` -/

theorem sprintf_join (bucket key : String) :
    Sprintf "%s/%s" [.str bucket, .str key] = bucket ++ "/" ++ key := by
  apply String.ext
  simp [Sprintf, doPrintf, printArg, extraArgs]

theorem keyPath_noPrefix (bucket key : String) :
    keyPath bucket true key = bucket ++ "/" ++ key := by
  simp only [keyPath, if_true, sprintf_join]

theorem keyPath_keep (bucket key : String) : keyPath bucket false key = key := by
  simp [keyPath]

theorem drop_length_succ (l r : List Char) (c : Char) :
    (l ++ c :: r).drop (l.length + 1) = r := by
  induction l with
  | nil => rfl
  | cons a l ih => simp [ih]

theorem dropChars_join (bucket key : String) :
    dropChars (bucket.length + 1) (bucket ++ "/" ++ key) = key := by
  apply String.ext
  show (bucket ++ "/" ++ key).data.drop (bucket.data.length + 1) = key.data
  rw [String.data_append, String.data_append, List.append_assoc]
  exact drop_length_succ bucket.data key.data '/'

theorem firstSegment_join (bucket key : String) (h : '/' ∉ bucket.data) :
    firstSegment (bucket ++ "/" ++ key) = bucket := by
  apply String.ext
  have hall : ∀ c ∈ bucket.data, decide (c ≠ '/') = true := by
    intro c hc
    rw [decide_eq_true_iff]
    intro hslash
    exact h (hslash ▸ hc)
  simp only [firstSegment, String.data_append, List.append_assoc]
  rw [List.takeWhile_append_of_pos hall]
  simp

/-- C3: without a prefix the path handed to `addFile` for a key `k` is the bucket
name, a `/` and `k`; removing the bucket name and one `/` from its front gives
`k` back, and two keys with the same path are equal.  With a non-empty prefix
the path is `k` itself. -/
theorem key_path_roundtrip (bucket pfx k k2 : String) :
    (pfx = "" →
        keyPath bucket (noPrefix pfx) k = bucket ++ "/" ++ k
        ∧ dropChars (bucket.length + 1) (keyPath bucket (noPrefix pfx) k) = k
        ∧ (keyPath bucket (noPrefix pfx) k = keyPath bucket (noPrefix pfx) k2 → k = k2))
    ∧ (pfx ≠ "" → keyPath bucket (noPrefix pfx) k = k) := by
  constructor
  · intro h
    subst h
    rw [noPrefix_empty, keyPath_noPrefix, keyPath_noPrefix]
    refine ⟨rfl, dropChars_join bucket k, ?_⟩
    intro heq
    have h2 := congrArg (dropChars (bucket.length + 1)) heq
    rw [dropChars_join, dropChars_join] at h2
    exact h2
  · intro h
    rw [noPrefix_of_ne h, keyPath_keep]

theorem key_path_roundtrip_witness :
    keyPath "logs" (noPrefix "") "a/b.txt" = "logs/a/b.txt"
      ∧ dropChars 5 (keyPath "logs" (noPrefix "") "a/b.txt") = "a/b.txt"
      ∧ keyPath "logs" (noPrefix "a/") "a/b.txt" = "a/b.txt" :=
  ⟨((key_path_roundtrip "logs" "" "a/b.txt" "c").1 rfl).1,
   ((key_path_roundtrip "logs" "" "a/b.txt" "c").1 rfl).2.1,
   (key_path_roundtrip "logs" "a/" "a/b.txt" "c").2 (by decide)⟩

/-! ## The events of a run -/

theorem insertedPaths_append {F : Type} (l₁ l₂ : List (Event F)) :
    insertedPaths (l₁ ++ l₂) = insertedPaths l₁ ++ insertedPaths l₂ := by
  induction l₁ with
  | nil => rfl
  | cons e rest ih => cases e <;> simp [insertedPaths, ih]

theorem insertedPaths_errAndExit {F : Type} (err : String) :
    insertedPaths (errAndExit err : List (Event F)) = [] := rfl

theorem insertedPaths_listingLoop {F : Type} (addFile : F → String → Object → F)
    (bucket : String) (np : Bool) (contents : List Object) :
    ∀ fs : F, insertedPaths (listingLoop addFile bucket np fs contents).2
      = contents.map (fun obj => keyPath bucket np obj.Key) := by
  induction contents with
  | nil => intro fs; rfl
  | cons obj rest ih =>
    intro fs
    simp only [listingLoop, insertedPaths, List.map_cons, ih]

theorem insertedPaths_render {F : Type} (flags : Flags) (env : Env F) (fs : F) (np : Bool) :
    insertedPaths (render flags env fs np) = [] := by
  unfold render
  by_cases ho : flags.o ≠ ""
  · rw [if_pos ho]
    cases env.Create flags.o <;> rfl
  · rw [if_neg ho]
    rfl

/-- The run once the bucket is named, the session is open and the listing has
answered: the spinner and the request, one `addFile` per listed object, then
the rendering. -/
theorem main_listed {F : Type} (flags : Flags) (env : Env F) (contents : List Object)
    (hb : flags.bucket ≠ "")
    (hsess : env.NewSessionWithOptions flags.region flags.profile = .ok ())
    (hlist : env.ListObjects flags.region flags.profile flags.bucket flags.pfx = .ok contents) :
    main flags env =
      .newSpin :: .listObjects flags.bucket flags.pfx :: .spinDone ::
        ((listingLoop env.addFile flags.bucket (noPrefix flags.pfx) env.NewFs contents).2
          ++ render flags env
              (listingLoop env.addFile flags.bucket (noPrefix flags.pfx) env.NewFs contents).1
              (noPrefix flags.pfx)) := by
  have hsize : ¬ flags.bucket.utf8ByteSize = 0 := fun h => hb ((utf8ByteSize_eq_zero _).mp h)
  simp only [main, hsize, if_false, hsess, hlist]

theorem main_insertedPaths {F : Type} (flags : Flags) (env : Env F) (contents : List Object)
    (hb : flags.bucket ≠ "")
    (hsess : env.NewSessionWithOptions flags.region flags.profile = .ok ())
    (hlist : env.ListObjects flags.region flags.profile flags.bucket flags.pfx = .ok contents) :
    insertedPaths (main flags env)
      = contents.map (fun obj => keyPath flags.bucket (noPrefix flags.pfx) obj.Key) := by
  rw [main_listed flags env contents hb hsess hlist]
  simp only [insertedPaths, insertedPaths_append, insertedPaths_listingLoop,
    insertedPaths_render, List.append_nil]

theorem treeRoots_append {F : Type} (l₁ l₂ : List (Event F)) :
    treeRoots (l₁ ++ l₂) = treeRoots l₁ ++ treeRoots l₂ := by
  induction l₁ with
  | nil => rfl
  | cons e rest ih => cases e <;> simp [treeRoots, ih]

theorem treeRoots_listingLoop {F : Type} (addFile : F → String → Object → F)
    (bucket : String) (np : Bool) (contents : List Object) :
    ∀ fs : F, treeRoots (listingLoop addFile bucket np fs contents).2 = [] := by
  induction contents with
  | nil => intro fs; rfl
  | cons obj rest ih =>
    intro fs
    simp only [listingLoop, treeRoots, ih]

theorem treeRoots_render {F : Type} (flags : Flags) (env : Env F) (fs : F) (np : Bool) :
    ∀ r ∈ treeRoots (render flags env fs np), r = rootDir flags.bucket flags.pfx np := by
  intro r hr
  unfold render at hr
  by_cases ho : flags.o ≠ ""
  · rw [if_pos ho] at hr
    cases hc : env.Create flags.o with
    | error err =>
      rw [hc] at hr
      simp [treeRoots, errAndExit] at hr
    | ok u =>
      rw [hc] at hr
      simpa [treeRoots] using hr
  · rw [if_neg ho] at hr
    simpa [treeRoots] using hr

/-- C4: without a prefix, for a bucket name that is not empty and has no `/`, the
first `/`-separated segment of every path handed to `addFile` is the bucket
name, which is also the root label handed to `tree.New`. -/
theorem root_label_first_segment {F : Type} (flags : Flags) (env : Env F)
    (contents : List Object) (hb : flags.bucket ≠ "") (hslash : '/' ∉ flags.bucket.data)
    (hp : flags.pfx = "")
    (hsess : env.NewSessionWithOptions flags.region flags.profile = .ok ())
    (hlist : env.ListObjects flags.region flags.profile flags.bucket flags.pfx = .ok contents) :
    (∀ p ∈ insertedPaths (main flags env), firstSegment p = flags.bucket)
      ∧ (∀ r ∈ treeRoots (main flags env), r = flags.bucket)
      ∧ rootDir flags.bucket flags.pfx (noPrefix flags.pfx) = flags.bucket := by
  have hnp : noPrefix flags.pfx = true := by rw [hp]; exact noPrefix_empty
  have hroot : rootDir flags.bucket flags.pfx (noPrefix flags.pfx) = flags.bucket := by
    simp [rootDir, hnp]
  refine ⟨?_, ?_, hroot⟩
  · intro p hp'
    rw [main_insertedPaths flags env contents hb hsess hlist, hnp] at hp'
    obtain ⟨obj, _, hobj⟩ := List.mem_map.mp hp'
    rw [← hobj, keyPath_noPrefix]
    exact firstSegment_join flags.bucket obj.Key hslash
  · intro r hr
    rw [main_listed flags env contents hb hsess hlist] at hr
    simp only [treeRoots, treeRoots_append, treeRoots_listingLoop, List.nil_append] at hr
    rw [← hroot]
    exact treeRoots_render flags env _ _ r hr

theorem root_label_first_segment_witness :
    ((∀ p ∈ insertedPaths (main sampleFlags sampleEnv), firstSegment p = "bk")
      ∧ (∀ r ∈ treeRoots (main sampleFlags sampleEnv), r = "bk")
      ∧ rootDir "bk" "" (noPrefix "") = "bk")
    ∧ insertedPaths (main sampleFlags sampleEnv) = ["bk/a/b.txt", "bk/", "bk/c"]
    ∧ treeRoots (main sampleFlags sampleEnv) = ["bk"] :=
  ⟨root_label_first_segment sampleFlags sampleEnv sampleContents (by decide) (by decide)
      rfl rfl rfl, by decide, by decide⟩

/-- C5: the run of `main` consists of the line `s3tree: "-b(s3 bucket) is required"`
on the standard error stream followed by exit status 1, with no listing
request, no `addFile` call and no write to the output sink, exactly when the
bucket flag is the empty string. -/
theorem bucket_required {F : Type} (flags : Flags) (env : Env F) :
    main flags env = [.stderr "s3tree: \"-b(s3 bucket) is required\"\n", .exit 1]
      ↔ flags.bucket = "" := by
  constructor
  · intro h
    by_contra hb
    have hsize : ¬ flags.bucket.utf8ByteSize = 0 :=
      fun hz => hb ((utf8ByteSize_eq_zero _).mp hz)
    simp only [main, hsize, if_false] at h
    cases hs : env.NewSessionWithOptions flags.region flags.profile with
    | error err =>
      rw [hs] at h
      simp at h
    | ok u =>
      rw [hs] at h
      simp at h
  · intro hb
    have hsize : flags.bucket.utf8ByteSize = 0 := (utf8ByteSize_eq_zero _).mpr hb
    simp only [main, hsize, if_true]
    rfl

/-- C8, as stated, fails: a listed record with an empty key is handed to `addFile`
(under the path "bk/"), so that the paths inserted are not those of the
records with a non-empty key only. -/
theorem empty_key_counterexample :
    insertedPaths (main sampleFlags sampleEnv) = ["bk/a/b.txt", "bk/", "bk/c"]
      ∧ (sampleContents.filter (fun obj => obj.Key ≠ "")).map
          (fun obj => keyPath "bk" (noPrefix "") obj.Key) = ["bk/a/b.txt", "bk/c"]
      ∧ insertedPaths (main sampleFlags sampleEnv)
          ≠ (sampleContents.filter (fun obj => obj.Key ≠ "")).map
              (fun obj => keyPath "bk" (noPrefix "") obj.Key) := by
  decide

/-- C8, amended: no record is skipped.  For every listing, the paths inserted into
the tree are those of all the records, in listing order, one for each record;
a record whose key is the empty string is inserted under the bucket name
followed by `/` when there is no prefix and under the empty path when there is
one, and the records after it are inserted as well. -/
theorem every_record_inserted {F : Type} (flags : Flags) (env : Env F)
    (contents : List Object) (hb : flags.bucket ≠ "")
    (hsess : env.NewSessionWithOptions flags.region flags.profile = .ok ())
    (hlist : env.ListObjects flags.region flags.profile flags.bucket flags.pfx = .ok contents) :
    insertedPaths (main flags env)
        = contents.map (fun obj => keyPath flags.bucket (noPrefix flags.pfx) obj.Key)
      ∧ (insertedPaths (main flags env)).length = contents.length
      ∧ keyPath flags.bucket true "" = flags.bucket ++ "/"
      ∧ keyPath flags.bucket false "" = "" := by
  have hpaths := main_insertedPaths flags env contents hb hsess hlist
  refine ⟨hpaths, ?_, ?_, keyPath_keep _ _⟩
  · rw [hpaths, List.length_map]
  · rw [keyPath_noPrefix, String.append_empty]

theorem every_record_inserted_witness :
    insertedPaths (main { sampleFlags with pfx := "a/" } sampleEnv)
        = sampleContents.map (fun obj => keyPath "bk" (noPrefix "a/") obj.Key)
      ∧ (insertedPaths (main { sampleFlags with pfx := "a/" } sampleEnv)).length = 3
      ∧ keyPath "bk" true "" = "bk/"
      ∧ keyPath "bk" false "" = "" :=
  every_record_inserted { sampleFlags with pfx := "a/" } sampleEnv sampleContents
    (by decide) rfl rfl

/-! ## The footer written by a run -/

theorem writes_append {F : Type} (l₁ l₂ : List (Event F)) :
    writes (l₁ ++ l₂) = writes l₁ ++ writes l₂ := by
  induction l₁ with
  | nil => rfl
  | cons e rest ih => cases e <;> simp [writes, ih]

theorem writes_listingLoop {F : Type} (addFile : F → String → Object → F)
    (bucket : String) (np : Bool) (contents : List Object) :
    ∀ fs : F, writes (listingLoop addFile bucket np fs contents).2 = [] := by
  induction contents with
  | nil => intro fs; rfl
  | cons obj rest ih =>
    intro fs
    simp only [listingLoop, writes, ih]

/-- The writes of the rendering part of `main` once the sink is open: the text
of `Print`, then the footer for the counts taken from `Visit`. -/
theorem writes_render {F : Type} (flags : Flags) (env : Env F) (fs : F) (np : Bool)
    (hout : flags.o = "" ∨ env.Create flags.o = .ok ()) :
    writes (render flags env fs np)
      = [(sink flags,
            env.Print (rootDir flags.bucket flags.pfx np)
              (buildOptions flags fs (sink flags))),
         (sink flags,
            footerWritten
              (counts (env.Visit (rootDir flags.bucket flags.pfx np)
                (buildOptions flags fs (sink flags)))).1
              (counts (env.Visit (rootDir flags.bucket flags.pfx np)
                (buildOptions flags fs (sink flags)))).2
              flags.d)] := by
  unfold render sink
  by_cases ho : flags.o ≠ ""
  · have hc : env.Create flags.o = .ok () := by
      rcases hout with h | h
      · exact absurd h ho
      · exact h
    rw [if_pos ho, if_pos ho, hc]
    rfl
  · rw [if_neg ho, if_neg ho]
    rfl

/-- C1: in every run of `main` that reaches the output (a bucket is named, the
session opens, the listing answers and the sink opens), the texts written to
the output sink are the text of `Print` and then the footer, and for the
counts `(nd, nf)` held after the `Visit` step the footer is a newline, the
decimal numeral of `nd` and " directories" when `DirsOnly` is set, and with
", ", the decimal numeral of `nf` and " files" appended when it is not.  The
text written by `fmt.Fprintf(outFile, footer)` has this form for every pair of
counts and every value of `DirsOnly`. -/
theorem footer_written_text {F : Type} (flags : Flags) (env : Env F)
    (contents : List Object) (hb : flags.bucket ≠ "")
    (hsess : env.NewSessionWithOptions flags.region flags.profile = .ok ())
    (hlist : env.ListObjects flags.region flags.profile flags.bucket flags.pfx = .ok contents)
    (hout : flags.o = "" ∨ env.Create flags.o = .ok ()) :
    writes (main flags env)
        = [(sink flags, env.Print (runRoot flags) (runOptions flags env contents)),
           (sink flags,
              if (runOptions flags env contents).DirsOnly then
                "\n" ++ Int.repr (runCounts flags env contents).1 ++ " directories"
              else
                "\n" ++ Int.repr (runCounts flags env contents).1 ++ " directories, "
                  ++ Int.repr (runCounts flags env contents).2 ++ " files")]
      ∧ (∀ (nd nf : Int) (DirsOnly : Bool),
          footerWritten nd nf DirsOnly =
            if DirsOnly then "\n" ++ Int.repr nd ++ " directories"
            else "\n" ++ Int.repr nd ++ " directories, " ++ Int.repr nf ++ " files") := by
  refine ⟨?_, footerWritten_eq⟩
  rw [main_listed flags env contents hb hsess hlist]
  simp only [writes, writes_append, writes_listingLoop, List.nil_append]
  rw [writes_render flags env _ _ hout, footerWritten_eq]
  rfl

theorem footer_written_text_witness :
    writes (main sampleFlags countingEnv)
        = [(.stdout, "bk\n"), (.stdout, "\n3 directories, 5 files")]
      ∧ writes (main { sampleFlags with d := true, o := "out.txt" } countingEnv)
        = [(.file "out.txt", "bk\n"), (.file "out.txt", "\n3 directories")]
      ∧ runCounts sampleFlags countingEnv sampleContents = (3, 5) :=
  ⟨(footer_written_text sampleFlags countingEnv sampleContents (by decide) rfl rfl
      (Or.inl rfl)).1,
   (footer_written_text { sampleFlags with d := true, o := "out.txt" } countingEnv
      sampleContents (by decide) rfl rfl (Or.inr rfl)).1,
   by decide⟩

/-! ## The options -/

/-- C6: the flag `--ignore-case` does not reach the options: for every flag
setting, changing only `ignorecase` changes neither the options built (whose
`IgnoreCase` field stays false) nor anything else of the run. -/
theorem ignore_case_dropped {F : Type} (flags : Flags) (b : Bool) (env : Env F) (fs : F)
    (out : OutFile) :
    buildOptions { flags with ignorecase := b } fs out = buildOptions flags fs out
      ∧ (buildOptions { flags with ignorecase := b } fs out).IgnoreCase = false
      ∧ main { flags with ignorecase := b } env = main flags env :=
  ⟨rfl, rfl, rfl⟩

/-- C7, as stated, fails: with `-v` and `-t` both given, `VerSort` and `ModSort` are
both true. -/
theorem sort_flags_counterexample :
    sortCriteria (buildOptions { sampleFlags with v := true, t := true } () .stdout)
        = [true, false, false, true]
      ∧ (sortCriteria (buildOptions { sampleFlags with v := true, t := true } ()
          .stdout)).count true = 2 := by
  decide

/-- C7, amended: `-v`, `-t` and `--sort` are independent.  At most one of `VerSort`,
`NameSort`, `SizeSort`, `ModSort` is true exactly when the flags do not
combine `-v` with `-t`, `-v` with `--sort name` or `--sort size`, or `-t` with
`--sort name`, `--sort size` or `--sort version`; `NameSort` and `SizeSort` are
never both true. -/
theorem sort_criteria_exclusive {F : Type} (flags : Flags) (fs : F) (out : OutFile) :
    ((sortCriteria (buildOptions flags fs out)).count true ≤ 1
        ↔ ¬ (flags.v = true ∧ flags.t = true)
          ∧ ¬ (flags.v = true ∧ (flags.sort = "name" ∨ flags.sort = "size"))
          ∧ ¬ (flags.t = true
                ∧ (flags.sort = "name" ∨ flags.sort = "size" ∨ flags.sort = "version")))
      ∧ ¬ ((buildOptions flags fs out).NameSort = true
            ∧ (buildOptions flags fs out).SizeSort = true) := by
  have h1 : ("name" : String) ≠ "size" := by decide
  have h2 : ("name" : String) ≠ "version" := by decide
  have h3 : ("size" : String) ≠ "version" := by decide
  constructor
  · by_cases hn : flags.sort = "name"
    · cases hv : flags.v <;> cases ht : flags.t <;>
        simp [sortCriteria, buildOptions, hn, hv, ht, h1, h2]
    · by_cases hs : flags.sort = "size"
      · cases hv : flags.v <;> cases ht : flags.t <;>
          simp [sortCriteria, buildOptions, hs, hv, ht, h1.symm, h3]
      · by_cases hver : flags.sort = "version"
        · cases hv : flags.v <;> cases ht : flags.t <;>
            simp [sortCriteria, buildOptions, hver, hv, ht, h2.symm, h3.symm]
        · cases hv : flags.v <;> cases ht : flags.t <;>
            simp [sortCriteria, buildOptions, hn, hs, hver, hv, ht]
  · intro h
    simp only [buildOptions, beq_iff_eq] at h
    exact h1 (h.1.symm.trans h.2)

/-- C9: for every flag setting the options built by `main` follow the usage text:
each listing, file and graphics field holds its flag, `ModSort` is `-t`,
`VerSort` holds exactly when `-v` is given or `--sort` is "version", `NameSort`
exactly when `--sort` is "name", `SizeSort` exactly when `--sort` is "size",
and any other `--sort` value selects none of name, size and version. -/
theorem options_follow_flags {F : Type} (flags : Flags) (fs : F) (out : OutFile) :
    (buildOptions flags fs out).All = flags.a
      ∧ (buildOptions flags fs out).DirsOnly = flags.d
      ∧ (buildOptions flags fs out).FullPath = flags.f
      ∧ (buildOptions flags fs out).ByteSize = flags.s
      ∧ (buildOptions flags fs out).UnitSize = flags.h
      ∧ (buildOptions flags fs out).Quotes = flags.Q
      ∧ (buildOptions flags fs out).LastMod = flags.D
      ∧ (buildOptions flags fs out).Colorize = flags.C
      ∧ (buildOptions flags fs out).DeepLevel = flags.L
      ∧ (buildOptions flags fs out).NoSort = flags.U
      ∧ (buildOptions flags fs out).ReverSort = flags.r
      ∧ (buildOptions flags fs out).DirSort = flags.dirsfirst
      ∧ (buildOptions flags fs out).ModSort = flags.t
      ∧ (buildOptions flags fs out).Pattern = flags.P
      ∧ (buildOptions flags fs out).IPattern = flags.I
      ∧ ((buildOptions flags fs out).VerSort = true
          ↔ flags.v = true ∨ flags.sort = "version")
      ∧ ((buildOptions flags fs out).NameSort = true ↔ flags.sort = "name")
      ∧ ((buildOptions flags fs out).SizeSort = true ↔ flags.sort = "size")
      ∧ (flags.sort = "name" ∨ flags.sort = "size" ∨ flags.sort = "version"
          ∨ ((buildOptions flags fs out).NameSort = false
              ∧ (buildOptions flags fs out).SizeSort = false
              ∧ (buildOptions flags fs out).VerSort = flags.v))
      ∧ (buildOptions flags fs out).Fs = fs
      ∧ (buildOptions flags fs out).OutFile = out := by
  refine ⟨rfl, rfl, rfl, rfl, rfl, rfl, rfl, rfl, rfl, rfl, rfl, rfl, rfl, rfl, rfl,
    ?_, ?_, ?_, ?_, rfl, rfl⟩
  · simp [buildOptions]
  · simp [buildOptions]
  · simp [buildOptions]
  · by_cases hn : flags.sort = "name"
    · exact Or.inl hn
    · by_cases hs : flags.sort = "size"
      · exact Or.inr (Or.inl hs)
      · by_cases hver : flags.sort = "version"
        · exact Or.inr (Or.inr (Or.inl hver))
        · refine Or.inr (Or.inr (Or.inr ?_))
          simp [buildOptions, hn, hs, hver]

end S3Tree
